import Mathlib

/-!
Verification development for the store_management repository.

The development shallowly embeds the repository's core logic:
  * `database.py` — the inventory ledger (`add_item`, `remove_item`, the
    manager CRUD operations, `get_transactions`, `get_low_stock_items`);
  * `app.py` — the `api_purchase` endpoint validation;
  * `Restuarant Report/analysis.py` — the four analytics pipelines
    (leakage, variance, price trend, menu engineering).

Numeric values are modelled as exact rationals; where the Python code's
float semantics matter (division by zero producing ±inf or NaN, NaN
propagation, NaN-last sorting) we use `PFloat`, rationals extended with
`inf`, `ninf` and `nan`, with IEEE-754 rules for the operations the code
performs.  Python's `round(x, n)` and pandas `.round(n)` round half to
even; `rhe` models that on rationals.
-/

/-! ## Definitions -/

/-- Round a rational to an integer, halves to even (Python/numpy rounding). -/
def rhe (x : ℚ) : ℤ :=
  if x - ⌊x⌋ < 1/2 then ⌊x⌋
  else if 1/2 < x - ⌊x⌋ then ⌊x⌋ + 1
  else if ⌊x⌋ % 2 = 0 then ⌊x⌋ else ⌊x⌋ + 1

/-- `round(x, 2)` of Python on exact rationals. -/
def rnd2 (x : ℚ) : ℚ := (rhe (x * 100) : ℚ) / 100

/-- `round(x, 3)` of Python on exact rationals. -/
def rnd3 (x : ℚ) : ℚ := (rhe (x * 1000) : ℚ) / 1000

/-- A rational that is a multiple of 1/1000, i.e. exactly 3 decimal places. -/
def isMul3 (x : ℚ) : Prop := ∃ k : ℤ, x = (k : ℚ) / 1000

/-- Floating-point values as the Python analytics code sees them: an exact
finite value, positive or negative infinity, or NaN.  Finite arithmetic is
exact (the development never needs to model precision loss, only the
infinity/NaN behaviour of float division). -/
inductive PFloat where
  | fin (q : ℚ)
  | inf
  | ninf
  | nan
deriving DecidableEq

namespace PFloat

def add : PFloat → PFloat → PFloat
  | nan, _ => nan
  | _, nan => nan
  | fin a, fin b => fin (a + b)
  | fin _, inf => inf
  | fin _, ninf => ninf
  | inf, fin _ => inf
  | inf, inf => inf
  | inf, ninf => nan
  | ninf, fin _ => ninf
  | ninf, inf => nan
  | ninf, ninf => ninf

def sub : PFloat → PFloat → PFloat
  | nan, _ => nan
  | _, nan => nan
  | fin a, fin b => fin (a - b)
  | fin _, inf => ninf
  | fin _, ninf => inf
  | inf, fin _ => inf
  | inf, inf => nan
  | inf, ninf => inf
  | ninf, fin _ => ninf
  | ninf, inf => ninf
  | ninf, ninf => nan

def mul : PFloat → PFloat → PFloat
  | nan, _ => nan
  | _, nan => nan
  | fin a, fin b => fin (a * b)
  | fin a, inf => if 0 < a then inf else if a < 0 then ninf else nan
  | fin a, ninf => if 0 < a then ninf else if a < 0 then inf else nan
  | inf, fin b => if 0 < b then inf else if b < 0 then ninf else nan
  | ninf, fin b => if 0 < b then ninf else if b < 0 then inf else nan
  | inf, inf => inf
  | inf, ninf => ninf
  | ninf, inf => ninf
  | ninf, ninf => inf

/-- IEEE-754 division: a nonzero finite value divided by zero gives a signed
infinity, `0/0` gives NaN.  This is what pandas/numpy float columns do. -/
def div : PFloat → PFloat → PFloat
  | nan, _ => nan
  | _, nan => nan
  | fin a, fin b =>
      if b ≠ 0 then fin (a / b)
      else if 0 < a then inf else if a < 0 then ninf else nan
  | fin _, inf => fin 0
  | fin _, ninf => fin 0
  | inf, fin b => if 0 ≤ b then inf else ninf
  | ninf, fin b => if 0 ≤ b then ninf else inf
  | inf, inf => nan
  | inf, ninf => nan
  | ninf, inf => nan
  | ninf, ninf => nan

/-- pandas `.round(2)` on a float column. -/
def round2 : PFloat → PFloat
  | fin q => fin (rnd2 q)
  | inf => inf
  | ninf => ninf
  | nan => nan

/-- IEEE `<=` comparison: any comparison with NaN is false. -/
def leB : PFloat → PFloat → Bool
  | nan, _ => false
  | _, nan => false
  | ninf, _ => true
  | fin _, ninf => false
  | fin a, fin b => decide (a ≤ b)
  | fin _, inf => true
  | inf, inf => true
  | inf, fin _ => false
  | inf, ninf => false

/-- The ordering used by pandas `sort_values(ascending=False)`: non-NaN
values descend (`inf` greatest, `ninf` least) and NaN is placed last
(`na_position` defaults to `last`).  `sortGE a b` means `a` may precede `b`. -/
def sortGE : PFloat → PFloat → Bool
  | _, nan => true
  | nan, _ => false
  | inf, _ => true
  | fin _, inf => false
  | fin a, fin b => decide (b ≤ a)
  | fin _, ninf => true
  | ninf, inf => false
  | ninf, fin _ => false
  | ninf, ninf => true

end PFloat

/-- Relation sorting a list by a `PFloat` key in pandas descending order. -/
def keyRel {α : Type} (f : α → PFloat) (a b : α) : Prop :=
  PFloat.sortGE (f a) (f b) = true

instance {α : Type} (f : α → PFloat) : DecidableRel (keyRel f) :=
  fun _ _ => instDecidableEqBool _ _

instance {α : Type} (f : α → PFloat) : IsTotal α (keyRel f) :=
  ⟨fun a b => by
    unfold keyRel
    rcases f a with q | _ | _ | _ <;> rcases f b with p | _ | _ | _ <;>
      simp [PFloat.sortGE] <;> exact le_total _ _⟩

instance {α : Type} (f : α → PFloat) : IsTrans α (keyRel f) :=
  ⟨fun a b c h1 h2 => by
    unfold keyRel at h1 h2 ⊢
    rcases ha : f a with q | _ | _ | _ <;> rcases hb : f b with p | _ | _ | _ <;>
      rcases hc : f c with r | _ | _ | _ <;> rw [ha, hb] at h1 <;> rw [hb, hc] at h2 <;>
        simp [PFloat.sortGE] at * <;> linarith⟩

/-- `sort_values(key, ascending=False)` with NaN last. -/
def sortByKeyDesc {α : Type} (f : α → PFloat) (l : List α) : List α :=
  l.insertionSort (keyRel f)

/-! ### Analytics data model (`Restuarant Report/analysis.py`)

Rows mirror the CSV columns the code reads; dates are day numbers. -/

structure PurchaseRow where
  date : ℤ
  item : String
  qty : ℚ
  unit : String
  rate : ℚ
  amount : ℚ
deriving DecidableEq

structure IssueRow where
  date : ℤ
  item : String
  qtyIssued : ℚ
deriving DecidableEq

structure SaleRow where
  date : ℤ
  item : String
  category : String
  qtySold : ℚ
  revenue : ℚ
  foodCost : ℚ
  profit : ℚ
deriving DecidableEq

structure BomRow where
  menuItem : String
  ingredient : String
  qtyRequired : ℚ
deriving DecidableEq

/-- `groupby('Item Name')['Quantity'].sum()` at one key. -/
def purchasedQty (P : List PurchaseRow) (k : String) : ℚ :=
  ((P.filter (·.item = k)).map (·.qty)).sum

/-- `groupby('Item Name')['Amount'].sum()` at one key. -/
def purchasedAmount (P : List PurchaseRow) (k : String) : ℚ :=
  ((P.filter (·.item = k)).map (·.amount)).sum

/-- `stk_df.groupby('Item Name')['Quantity Issued'].sum()` at one key. -/
def issuedQty (I : List IssueRow) (k : String) : ℚ :=
  ((I.filter (·.item = k)).map (·.qtyIssued)).sum

/-- `sales_df.groupby('Item Name')['Quantity Sold'].sum()` at one key. -/
def soldQty (S : List SaleRow) (k : String) : ℚ :=
  ((S.filter (·.item = k)).map (·.qtySold)).sum

/-- Distinct keys, sorted as a pandas groupby index is. -/
def sortedKeys (l : List String) : List String :=
  l.dedup.insertionSort (· ≤ ·)

/-! #### Analysis 1: leakage and waste (`leakage_waste_analysis`) -/

structure LeakRow where
  item : String
  totalPurchased : ℚ
  amount : ℚ
  totalIssued : ℚ
  difference : ℚ
  leakagePct : PFloat
  valueLost : PFloat
deriving DecidableEq

/-- One row of the joined leakage table.  The outer join with `fillna(0)`
means a key missing on one side contributes 0 sums, which is exactly what
the filtered sums give. -/
def leakRow (P : List PurchaseRow) (I : List IssueRow) (k : String) : LeakRow :=
  let tp := purchasedQty P k
  let am := purchasedAmount P k
  let ti := issuedQty I k
  let diff := tp - ti
  { item := k
    totalPurchased := tp
    amount := am
    totalIssued := ti
    difference := diff
    leakagePct := PFloat.round2 (PFloat.mul (PFloat.div (.fin diff) (.fin tp)) (.fin 100))
    valueLost := PFloat.round2 (PFloat.mul (PFloat.div (.fin diff) (.fin tp)) (.fin am)) }

def leakageKeys (P : List PurchaseRow) (I : List IssueRow) : List String :=
  sortedKeys (P.map (·.item) ++ I.map (·.item))

def leakage_waste_analysis (P : List PurchaseRow) (I : List IssueRow) : List LeakRow :=
  sortByKeyDesc (·.leakagePct) ((leakageKeys P I).map (leakRow P I))

/-! #### Analysis 2: theoretical vs actual consumption (`variance_analysis`) -/

/-- `theoretical[ingredient] += v`, initialising the entry to 0 first. -/
def bump (l : List (String × ℚ)) (k : String) (v : ℚ) : List (String × ℚ) :=
  match l with
  | [] => [(k, v)]
  | (k0, v0) :: rest => if k0 = k then (k0, v0 + v) :: rest else (k0, v0) :: bump rest k v

/-- The `theoretical` dict built by iterating the BOM rows: a component
contributes only when its menu item appears in the sales aggregate. -/
def theoreticalMap (S : List SaleRow) (B : List BomRow) : List (String × ℚ) :=
  B.foldl
    (fun acc row =>
      if row.menuItem ∈ S.map (·.item) then
        bump acc row.ingredient (soldQty S row.menuItem * row.qtyRequired)
      else acc)
    []

def lookupQ (l : List (String × ℚ)) (k : String) : ℚ :=
  ((l.find? (·.1 = k)).map (·.2)).getD 0

/-- `df.replace([np.inf, -np.inf], 0)`: clamps infinities, leaves NaN alone. -/
def replaceInf : PFloat → PFloat
  | .inf => .fin 0
  | .ninf => .fin 0
  | x => x

structure VarRow where
  ingredient : String
  theoretical : ℚ
  actual : ℚ
  variance : ℚ
  variancePct : PFloat
deriving DecidableEq

def varRow (S : List SaleRow) (B : List BomRow) (I : List IssueRow) (k : String) : VarRow :=
  let th := lookupQ (theoreticalMap S B) k
  let ac := issuedQty I k
  let v := ac - th
  { ingredient := k
    theoretical := th
    actual := ac
    variance := v
    variancePct :=
      replaceInf (PFloat.round2 (PFloat.mul (PFloat.div (.fin v) (.fin th)) (.fin 100))) }

def varianceKeys (S : List SaleRow) (B : List BomRow) (I : List IssueRow) : List String :=
  sortedKeys ((theoreticalMap S B).map (·.1) ++ I.map (·.item))

def variance_analysis (S : List SaleRow) (B : List BomRow) (I : List IssueRow) : List VarRow :=
  sortByKeyDesc (·.variancePct) ((varianceKeys S B I).map (varRow S B I))

/-! #### Analysis 3: purchase price trends (`price_trend_analysis`) -/

/-- `purchase_df.groupby('Item Name')['Amount'].sum().nlargest(5)`: the keys
of the five largest sums, stably preferring earlier (alphabetical) keys on
ties, as `nlargest` with the default `keep='first'` does. -/
def top_items (P : List PurchaseRow) : List String :=
  ((((sortedKeys (P.map (·.item))).map (fun k => (k, purchasedAmount P k))).insertionSort
      (fun a b => b.2 ≤ a.2)).take 5).map (·.1)

/-- The item's `Rate` column after `sort_values('Date')`. -/
def chronRates (P : List PurchaseRow) (k : String) : List ℚ :=
  ((P.filter (·.item = k)).insertionSort (fun a b => a.date ≤ b.date)).map (·.rate)

structure TrendRow where
  item : String
  firstPrice : ℚ
  lastPrice : ℚ
  change : PFloat
deriving DecidableEq

/-- First/last rate and the change percentage for one top item; `none` when
the item has no purchase rows (then `iloc[0]` would fail — unreachable for
keys that came out of the groupby). -/
def trendRow? (P : List PurchaseRow) (k : String) : Option TrendRow :=
  match chronRates P k with
  | [] => none
  | r :: rs =>
      some
        { item := k
          firstPrice := r
          lastPrice := rs.getLastD r
          change :=
            PFloat.mul (PFloat.div (.fin (rs.getLastD r - r)) (.fin r)) (.fin 100) }

def price_trend_analysis (P : List PurchaseRow) : List TrendRow :=
  (top_items P).filterMap (trendRow? P)

/-! #### Analysis 4: menu engineering (`menu_engineering_analysis`) -/

structure MenuRow where
  item : String
  qtySold : ℚ
  revenue : ℚ
  foodCost : ℚ
  profit : ℚ
  category : String
  profitMarginPct : PFloat
deriving DecidableEq

inductive MenuClass where
  | star
  | plowHorse
  | puzzle
  | dog
deriving DecidableEq

def menuRow (S : List SaleRow) (k : String) : MenuRow :=
  let rev := ((S.filter (·.item = k)).map (·.revenue)).sum
  let pr := ((S.filter (·.item = k)).map (·.profit)).sum
  { item := k
    qtySold := soldQty S k
    revenue := rev
    foodCost := ((S.filter (·.item = k)).map (·.foodCost)).sum
    profit := pr
    category := (((S.filter (·.item = k)).head?).map (·.category)).getD ""
    profitMarginPct := PFloat.round2 (PFloat.mul (PFloat.div (.fin pr) (.fin rev)) (.fin 100)) }

def menuRows (S : List SaleRow) : List MenuRow :=
  (sortedKeys (S.map (·.item))).map (menuRow S)

/-- pandas `Series.mean()` (skipna): NaN entries are dropped, the rest are
summed and divided by their count; all-NaN (or empty) gives NaN via 0/0. -/
def pfNanMean (l : List PFloat) : PFloat :=
  let fins := l.filter (· ≠ PFloat.nan)
  PFloat.div (fins.foldl PFloat.add (.fin 0)) (.fin (fins.length : ℚ))

def avgPopularity (S : List SaleRow) : PFloat :=
  PFloat.div (.fin (((menuRows S).map (·.qtySold)).sum)) (.fin ((menuRows S).length : ℚ))

def avgProfitMargin (S : List SaleRow) : PFloat :=
  pfNanMean ((menuRows S).map (·.profitMarginPct))

/-- The `classify_item` closure: `>=` comparisons against the two means
(IEEE semantics, so a NaN side compares false). -/
def classify_item (qtySold : ℚ) (margin avgPop avgMargin : PFloat) : MenuClass :=
  let highPop := PFloat.leB avgPop (.fin qtySold)
  let highProfit := PFloat.leB avgMargin margin
  if highPop && highProfit then .star
  else if highPop && !highProfit then .plowHorse
  else if !highPop && highProfit then .puzzle
  else .dog

def menu_engineering_analysis (S : List SaleRow) : List (MenuRow × MenuClass) :=
  (menuRows S).map
    (fun r => (r, classify_item r.qtySold r.profitMarginPct (avgPopularity S) (avgProfitMargin S)))

/-! ### Inventory ledger (`database.py`, `app.py`)

`created_at` is stored by the code as an ISO `YYYY-MM-DD HH:MM:SS` string
and compared lexicographically by SQLite; for such strings that order is
the order on (day, time), so timestamps are modelled as a day number plus
seconds-of-day.  Comparing a timestamp string against a date-only string
`YYYY-MM-DD` (the 30-day cutoff) lexicographically is comparing the day
numbers. -/

structure TS where
  day : ℤ
  sec : ℤ
deriving DecidableEq

def TS.leB (a b : TS) : Bool :=
  decide (a.day < b.day) || (decide (a.day = b.day) && decide (a.sec ≤ b.sec))

/-- Relation sorting by a `TS` key descending (`ORDER BY created_at DESC`). -/
def tsRelDesc {α : Type} (f : α → TS) (a b : α) : Prop :=
  TS.leB (f b) (f a) = true

instance {α : Type} (f : α → TS) : DecidableRel (tsRelDesc f) :=
  fun _ _ => instDecidableEqBool _ _

instance {α : Type} (f : α → TS) : IsTotal α (tsRelDesc f) :=
  ⟨fun a b => by
    unfold tsRelDesc TS.leB
    simp only [Bool.or_eq_true, Bool.and_eq_true, decide_eq_true_eq]
    omega⟩

instance {α : Type} (f : α → TS) : IsTrans α (tsRelDesc f) :=
  ⟨fun a b c h1 h2 => by
    unfold tsRelDesc TS.leB at h1 h2 ⊢
    simp only [Bool.or_eq_true, Bool.and_eq_true, decide_eq_true_eq] at h1 h2 ⊢
    omega⟩

/-- A `store_inventory` row. -/
structure Item where
  item_name : String
  category : String
  quantity : ℚ
  unit : String
  total_purchased : ℚ
  last_updated : TS
deriving DecidableEq

/-- A `transactions` row. -/
structure Txn where
  item_name : String
  category : String
  quantity : ℚ
  unit : String
  transaction_type : String
  user_id : ℤ
  username : String
  rate : Option ℚ
  amount : Option ℚ
  vendor : Option String
  notes : Option String
  created_at : TS
deriving DecidableEq

structure Store where
  inventory : List Item
  transactions : List Txn
deriving DecidableEq

def emptyStore : Store := { inventory := [], transactions := [] }

/-- `SELECT * FROM store_inventory WHERE item_name = ?` with `fetchone`. -/
def findItem (s : Store) (name : String) : Option Item :=
  s.inventory.find? (·.item_name = name)

def itemQty (s : Store) (name : String) : ℚ :=
  ((findItem s name).map (·.quantity)).getD 0

def itemTP (s : Store) (name : String) : ℚ :=
  ((findItem s name).map (·.total_purchased)).getD 0

/-- `add_item` (a purchase): rounds the quantity to 3 decimals, adds it to
both `quantity` and `total_purchased` of an existing row (or inserts a new
row with both equal to it), and logs a `purchase` transaction.  The Python
function always returns `True`. -/
def add_item (item_name category : String) (quantity0 : ℚ) (unit : String)
    (user_id : ℤ) (username : String) (rate amount : Option ℚ) (vendor : Option String)
    (now : TS) (s : Store) : Store :=
  let quantity := rnd3 quantity0
  let txn : Txn :=
    { item_name := item_name, category := category, quantity := quantity, unit := unit,
      transaction_type := "purchase", user_id := user_id, username := username,
      rate := rate, amount := amount, vendor := vendor, notes := none, created_at := now }
  match findItem s item_name with
  | some existing =>
      let new_qty := rnd3 (existing.quantity + quantity)
      let new_total := rnd3 (existing.total_purchased + quantity)
      { inventory :=
          s.inventory.map (fun it =>
            if it.item_name = item_name then
              { it with quantity := new_qty, total_purchased := new_total, last_updated := now }
            else it)
        transactions := s.transactions ++ [txn] }
  | none =>
      { inventory :=
          s.inventory ++
            [{ item_name := item_name, category := category, quantity := quantity,
               unit := unit, total_purchased := quantity, last_updated := now }]
        transactions := s.transactions ++ [txn] }

inductive RemoveResult where
  | ok
  | itemNotFound
  | insufficientStock (available : ℚ) (unit : String)
deriving DecidableEq

/-- `remove_item` (an issue to the kitchen): fails when the item is absent
or when `available + 0.001 < qty`; otherwise subtracts, clamps a slightly
negative result to 0, and logs a `kitchen` transaction. -/
def remove_item (item_name : String) (quantity0 : ℚ) (user_id : ℤ) (username : String)
    (notes : Option String) (now : TS) (s : Store) : RemoveResult × Store :=
  let quantity := rnd3 quantity0
  match findItem s item_name with
  | none => (.itemNotFound, s)
  | some existing =>
      let available_qty := rnd3 existing.quantity
      if available_qty + 1/1000 < quantity then
        (.insufficientStock available_qty existing.unit, s)
      else
        let nq0 := rnd3 (available_qty - quantity)
        let new_quantity := if nq0 < 0 then 0 else nq0
        (.ok,
          { inventory :=
              s.inventory.map (fun it =>
                if it.item_name = item_name then
                  { it with quantity := new_quantity, last_updated := now }
                else it)
            transactions :=
              s.transactions ++
                [{ item_name := item_name, category := existing.category,
                   quantity := quantity, unit := existing.unit,
                   transaction_type := "kitchen", user_id := user_id, username := username,
                   rate := none, amount := none, vendor := none, notes := notes,
                   created_at := now }] })

inductive MgrResult where
  | ok
  | alreadyExists
  | notFound
  | nameCollision
deriving DecidableEq

/-- `manager_add_item`: inserts a fresh row.  The INSERT names only
`item_name, category, quantity, unit, last_updated`, so `total_purchased`
takes its column DEFAULT of 0. -/
def manager_add_item (item_name category : String) (quantity : ℚ) (unit : String)
    (user_id : ℤ) (username : String) (now : TS) (s : Store) : MgrResult × Store :=
  match findItem s item_name with
  | some _ => (.alreadyExists, s)
  | none =>
      (.ok,
        { inventory :=
            s.inventory ++
              [{ item_name := item_name, category := category, quantity := quantity,
                 unit := unit, total_purchased := 0, last_updated := now }]
          transactions :=
            s.transactions ++
              [{ item_name := item_name, category := category, quantity := quantity,
                 unit := unit, transaction_type := "manager_add", user_id := user_id,
                 username := username, rate := none, amount := none, vendor := none,
                 notes := some "Added by manager", created_at := now }] })

/-- `manager_update_item`: rewrites name/category/quantity/unit (never
`total_purchased`), rejecting a rename onto an existing name, and logs a
synthetic `purchase`/`kitchen` transaction when the quantity changed. -/
def manager_update_item (original_name item_name category : String) (quantity : ℚ)
    (unit : String) (user_id : ℤ) (username : String) (now : TS) (s : Store) :
    MgrResult × Store :=
  match findItem s original_name with
  | none => (.notFound, s)
  | some existing =>
      if original_name ≠ item_name ∧ (findItem s item_name).isSome then
        (.nameCollision, s)
      else
        let old_quantity := existing.quantity
        let inv :=
          s.inventory.map (fun it =>
            if it.item_name = original_name then
              { it with
                  item_name := item_name
                  category := category
                  quantity := quantity
                  unit := unit
                  last_updated := now }
            else it)
        let qdiff := quantity - old_quantity
        let txns :=
          if qdiff = 0 then s.transactions
          else
            s.transactions ++
              [{ item_name := item_name, category := category,
                 quantity := if 0 < qdiff then qdiff else -qdiff, unit := unit,
                 transaction_type := if 0 < qdiff then "purchase" else "kitchen",
                 user_id := user_id, username := username, rate := none, amount := none,
                 vendor := none, notes := some "Adjusted by Manager", created_at := now }]
        (.ok, { inventory := inv, transactions := txns })

/-- `manager_delete_item`: deletes the row and logs its pre-delete snapshot. -/
def manager_delete_item (item_name : String) (user_id : ℤ) (username : String) (now : TS)
    (s : Store) : MgrResult × Store :=
  match findItem s item_name with
  | none => (.notFound, s)
  | some existing =>
      (.ok,
        { inventory := s.inventory.filter (fun it => ¬ it.item_name = item_name)
          transactions :=
            s.transactions ++
              [{ item_name := existing.item_name, category := existing.category,
                 quantity := existing.quantity, unit := existing.unit,
                 transaction_type := "manager_delete", user_id := user_id,
                 username := username, rate := none, amount := none, vendor := none,
                 notes := some "Deleted by manager", created_at := now }] })

/-- `get_low_stock_items`: `WHERE total_purchased > 0 AND quantity <
total_purchased * threshold / 100.0 ORDER BY item_name` (threshold defaults
to 10 in the code). -/
def get_low_stock_items (threshold_percent : ℚ) (s : Store) : List Item :=
  (s.inventory.filter (fun it =>
      it.total_purchased > 0 ∧ it.quantity < it.total_purchased * threshold_percent / 100)).insertionSort
    (fun a b => a.item_name ≤ b.item_name)

/-- The WHERE clause of `get_transactions`, following its `if/elif` chain:
always the 30-day cutoff, optionally the type, then either the range, a
single bound, or the single-date filter. -/
def txnMatches (nowDay : ℤ) (ttype : Option String) (date_filter from_date to_date : Option ℤ)
    (t : Txn) : Bool :=
  decide (nowDay - 30 ≤ t.created_at.day) &&
  (match ttype with
   | none => true
   | some ty => decide (t.transaction_type = ty)) &&
  (match from_date, to_date with
   | some fd, some td => decide (fd ≤ t.created_at.day ∧ t.created_at.day ≤ td)
   | some fd, none => decide (fd ≤ t.created_at.day)
   | none, some td => decide (t.created_at.day ≤ td)
   | none, none =>
       match date_filter with
       | some d => decide (t.created_at.day = d)
       | none => true)

/-- `get_transactions`: filter, `ORDER BY created_at DESC`, `LIMIT ?`
(limit defaults to 50 in the code). -/
def get_transactions (nowDay : ℤ) (limit : ℕ) (ttype : Option String)
    (date_filter from_date to_date : Option ℤ) (s : Store) : List Txn :=
  ((s.transactions.filter (txnMatches nowDay ttype date_filter from_date to_date)).insertionSort
      (tsRelDesc (·.created_at))).take limit

/-- `api_purchase` (`app.py`): `quantity = float(data.get('quantity', 0))`;
the request is rejected when `not all([item_name, category, quantity,
unit])`, i.e. when a field is missing/empty or the quantity is 0 (Python
falsiness) — and only then; `add_item` itself always succeeds. -/
inductive ApiResult where
  | ok
  | badRequest
deriving DecidableEq

def api_purchase (item_name category : String) (quantity : ℚ) (unit : String)
    (user_id : ℤ) (username : String) (rate amount : Option ℚ) (vendor : Option String)
    (now : TS) (s : Store) : ApiResult × Store :=
  if item_name = "" ∨ category = "" ∨ quantity = 0 ∨ unit = "" then (.badRequest, s)
  else (.ok, add_item item_name category quantity unit user_id username rate amount vendor now s)

/-- The ledger operations of the claims, as one alphabet. -/
inductive Op where
  | purchase (item category : String) (qty : ℚ) (unit : String) (uid : ℤ) (user : String)
      (rate amount : Option ℚ) (vendor : Option String) (now : TS)
  | issue (item : String) (qty : ℚ) (uid : ℤ) (user : String) (notes : Option String) (now : TS)
  | mgrAdd (item category : String) (qty : ℚ) (unit : String) (uid : ℤ) (user : String) (now : TS)
  | mgrUpdate (orig item category : String) (qty : ℚ) (unit : String) (uid : ℤ)
      (user : String) (now : TS)
  | mgrDelete (item : String) (uid : ℤ) (user : String) (now : TS)

def applyOp (s : Store) : Op → Store
  | .purchase i c q u uid usr r a v now => add_item i c q u uid usr r a v now s
  | .issue i q uid usr notes now => (remove_item i q uid usr notes now s).2
  | .mgrAdd i c q u uid usr now => (manager_add_item i c q u uid usr now s).2
  | .mgrUpdate o i c q u uid usr now => (manager_update_item o i c q u uid usr now s).2
  | .mgrDelete i uid usr now => (manager_delete_item i uid usr now s).2

def applyOps (ops : List Op) (s : Store) : Store := ops.foldl applyOp s

def itC8a : Item := ⟨"A", "Veg", 9, "KG", 100, ⟨1, 0⟩⟩

def itC8b : Item := ⟨"B", "Veg", 10, "KG", 100, ⟨1, 0⟩⟩

def sC8 : Store := ⟨[itC8a, itC8b], []⟩

def sC9 : Store := ⟨[⟨"X", "Veg", 5, "KG", 9, ⟨50, 0⟩⟩], []⟩

def txC10 : Txn :=
  ⟨"X", "Veg", 2, "KG", "purchase", 1, "u", none, none, none, none, ⟨100, 5⟩⟩

def sC10 : Store := ⟨[], [txC10]⟩

/-- The accounting invariant the spec states for the ledger. -/
def InvOK (s : Store) : Prop :=
  ∀ it ∈ s.inventory, 0 ≤ it.quantity ∧ it.quantity ≤ it.total_purchased

/-- Strengthened invariant carried through the induction: unique item
names, the accounting bounds, and all stored quantities have at most
3 decimal places (they are produced by `round(_, 3)`). -/
def AuxInv (s : Store) : Prop :=
  (s.inventory.map (·.item_name)).Nodup ∧
  ∀ it ∈ s.inventory, 0 ≤ it.quantity ∧ it.quantity ≤ it.total_purchased ∧
    isMul3 it.quantity ∧ isMul3 it.total_purchased

/-- The amended operation domain: purchases and issues with positive
quantity (the quantity sign conditions the HTTP layer enforces for
issues). -/
def opOK : Op → Prop
  | .purchase _ _ q _ _ _ _ _ _ _ => 0 < q
  | .issue _ q _ _ _ _ => 0 < q
  | _ => False

def opsC2 : List Op :=
  [Op.purchase "X" "Veg" 10 "KG" 1 "pm" none none none ⟨1, 0⟩,
   Op.issue "X" 4 2 "km" none ⟨2, 0⟩]

def salesC5 : List SaleRow := [⟨1, "Burger", "Main", 10, 100, 40, 60⟩]

def pC1 : List PurchaseRow := [⟨1, "A", 3, "KG", 10, 30⟩]

def iC1 : List IssueRow := [⟨1, "A", 1⟩, ⟨1, "B", 5⟩]

/-- The closed form of the `theoretical` accumulation: for an ingredient,
the sum over BOM components naming it whose menu item was sold. -/
def theoContrib (S : List SaleRow) (B : List BomRow) (k : String) : ℚ :=
  ((B.filter (fun r => r.ingredient = k ∧ r.menuItem ∈ S.map (·.item))).map
    (fun r => soldQty S r.menuItem * r.qtyRequired)).sum

def salesC4 : List SaleRow := [⟨1, "Pizza", "Main", 0, 0, 0, 0⟩]

def bomC4 : List BomRow := [⟨"Pizza", "Cheese", 2⟩]

def salesC4w : List SaleRow := [⟨1, "Pizza", "Main", 10, 100, 40, 60⟩]

def stkC4w : List IssueRow := [⟨1, "Cheese", 25⟩]

def pC6 : List PurchaseRow := [⟨1, "A", 1, "KG", 0, 10⟩, ⟨2, "A", 1, "KG", 50, 50⟩]

def pC6w : List PurchaseRow := [⟨1, "B", 1, "KG", 100, 100⟩, ⟨2, "B", 1, "KG", 120, 120⟩]

/-- The claim C3 scenario: two purchases of X (10 then 5) from an empty
store. -/
def sC3 : Store :=
  add_item "X" "Veg" 5 "KG" 1 "pm" none none none ⟨2, 0⟩
    (add_item "X" "Veg" 10 "KG" 1 "pm" none none none ⟨1, 0⟩ emptyStore)

/-- The claim C3 scenario continued: issue(X, 12). -/
def rC3a : RemoveResult × Store := remove_item "X" 12 2 "km" none ⟨3, 0⟩ sC3

/-- The claim C3 scenario continued: issue(X, 10) on quantity 3. -/
def rC3b : RemoveResult × Store := remove_item "X" 10 2 "km" none ⟨4, 0⟩ rC3a.2

/-! ## Theorems -/

theorem rhe_intCast (k : ℤ) : rhe (k : ℚ) = k := by
  simp [rhe]

theorem rhe_nonneg {x : ℚ} (h : 0 ≤ x) : 0 ≤ rhe x := by
  have h0 : (0 : ℤ) ≤ ⌊x⌋ := Int.le_floor.mpr (by exact_mod_cast h)
  unfold rhe
  split_ifs <;> omega

theorem rnd3_isMul3 (x : ℚ) : isMul3 (rnd3 x) := ⟨rhe (x * 1000), rfl⟩

theorem rnd3_eq_self {x : ℚ} (h : isMul3 x) : rnd3 x = x := by
  obtain ⟨k, rfl⟩ := h
  have hk : (k : ℚ) / 1000 * 1000 = (k : ℚ) := by field_simp
  rw [rnd3, hk, rhe_intCast]

theorem rnd3_nonneg {x : ℚ} (h : 0 ≤ x) : 0 ≤ rnd3 x := by
  have h1 : (0 : ℚ) ≤ x * 1000 := by positivity
  have h2 : (0 : ℚ) ≤ (rhe (x * 1000) : ℚ) := by exact_mod_cast rhe_nonneg h1
  unfold rnd3
  linarith

theorem isMul3_add {x y : ℚ} (hx : isMul3 x) (hy : isMul3 y) : isMul3 (x + y) := by
  obtain ⟨a, rfl⟩ := hx
  obtain ⟨b, rfl⟩ := hy
  exact ⟨a + b, by push_cast; ring⟩

theorem isMul3_sub {x y : ℚ} (hx : isMul3 x) (hy : isMul3 y) : isMul3 (x - y) := by
  obtain ⟨a, rfl⟩ := hx
  obtain ⟨b, rfl⟩ := hy
  exact ⟨a - b, by push_cast; ring⟩

theorem isMul3_zero : isMul3 0 := ⟨0, by norm_num⟩

theorem sortByKeyDesc_sorted {α : Type} (f : α → PFloat) (l : List α) :
    (sortByKeyDesc f l).Sorted (keyRel f) :=
  List.sorted_insertionSort (keyRel f) l

theorem mem_sortByKeyDesc {α : Type} (f : α → PFloat) {l : List α} {x : α} :
    x ∈ sortByKeyDesc f l ↔ x ∈ l :=
  List.mem_insertionSort (keyRel f)

theorem mem_sortedKeys {l : List String} {k : String} : k ∈ sortedKeys l ↔ k ∈ l := by
  unfold sortedKeys
  rw [List.mem_insertionSort, List.mem_dedup]

theorem find?_map_upd (l : List Item) (n m : String) (g : Item → Item)
    (hg : ∀ it, (g it).item_name = it.item_name) :
    (l.map (fun it => if it.item_name = m then g it else it)).find? (·.item_name = n) =
      (l.find? (·.item_name = n)).map (fun it => if it.item_name = m then g it else it) := by
  induction l with
  | nil => simp
  | cons a l ih =>
      by_cases hm : a.item_name = m
      · subst hm
        by_cases hn : a.item_name = n
        · subst hn
          simp [List.find?_cons, hg]
        · simp [List.find?_cons, hn, hg, ih]
      · by_cases hn : a.item_name = n
        · subst hn
          simp [List.find?_cons, hm]
        · simp [List.find?_cons, hm, hn, ih]

theorem eq_of_mem_same_name {l : List Item} (hn : (l.map (·.item_name)).Nodup)
    {a b : Item} (ha : a ∈ l) (hb : b ∈ l) (h : a.item_name = b.item_name) : a = b :=
  List.inj_on_of_nodup_map hn ha hb h

theorem remove_item_ok_shape {n : String} {q : ℚ} {uid : ℤ} {user : String}
    {notes : Option String} {now : TS} {s : Store}
    (h : (remove_item n q uid user notes now s).1 = RemoveResult.ok) :
    ∃ nq, (remove_item n q uid user notes now s).2.inventory =
      s.inventory.map (fun it =>
        if it.item_name = n then { it with quantity := nq, last_updated := now } else it) := by
  unfold remove_item at h ⊢
  cases hfind : findItem s n with
  | none => rw [hfind] at h; simp at h
  | some ex =>
      rw [hfind] at h
      dsimp only at h ⊢
      by_cases htol : rnd3 ex.quantity + 1/1000 < rnd3 q
      · rw [if_pos htol] at h
        exact absurd h (by simp)
      · rw [if_neg htol]
        exact ⟨_, rfl⟩

theorem manager_update_shape (orig nm cat : String) (q : ℚ) (unit : String) (uid : ℤ)
    (user : String) (now : TS) (s : Store) :
    (manager_update_item orig nm cat q unit uid user now s).2.inventory = s.inventory ∨
    (manager_update_item orig nm cat q unit uid user now s).2.inventory =
      s.inventory.map (fun it =>
        if it.item_name = orig then
          { it with
              item_name := nm
              category := cat
              quantity := q
              unit := unit
              last_updated := now }
        else it) := by
  unfold manager_update_item
  cases hfind : findItem s orig with
  | none => exact Or.inl rfl
  | some ex =>
      dsimp only
      by_cases hcol : orig ≠ nm ∧ (findItem s nm).isSome = true
      · rw [if_pos hcol]
        exact Or.inl rfl
      · rw [if_neg hcol]
        exact Or.inr rfl

theorem add_item_step {item cat : String} {q : ℚ} {unit : String} {uid : ℤ} {user : String}
    {rate amount : Option ℚ} {vendor : Option String} {now : TS} {s : Store}
    (hs : AuxInv s) (hq : 0 < q) :
    AuxInv (add_item item cat q unit uid user rate amount vendor now s) ∧
    ∀ n, itemTP s n ≤ itemTP (add_item item cat q unit uid user rate amount vendor now s) n := by
  have hrq0 : 0 ≤ rnd3 q := rnd3_nonneg hq.le
  have hrqm : isMul3 (rnd3 q) := rnd3_isMul3 q
  unfold add_item
  cases hfind : findItem s item with
  | none =>
      have hnotin : ∀ it ∈ s.inventory, it.item_name ≠ item := by
        intro it hit
        have h0 : s.inventory.find? (fun x => decide (x.item_name = item)) = none := hfind
        have := List.find?_eq_none.mp h0 it hit
        simpa using this
      constructor
      · constructor
        · rw [List.map_append, List.nodup_append]
          refine ⟨hs.1, by simp, ?_⟩
          intro a ha
          rw [List.mem_map] at ha
          obtain ⟨b, hb, rfl⟩ := ha
          simp [hnotin b hb]
        · intro it hit
          rcases List.mem_append.mp hit with h | h
          · exact hs.2 it h
          · simp only [List.mem_singleton] at h
            subst h
            exact ⟨hrq0, le_refl _, hrqm, hrqm⟩
      · intro n
        unfold itemTP findItem
        rw [List.find?_append]
        cases hfs : s.inventory.find? (fun x => decide (x.item_name = n)) with
        | none =>
            simp only [hfs, Option.none_or]
            cases hfs2 : List.find? (fun x => decide (x.item_name = n))
                [({ item_name := item, category := cat, quantity := rnd3 q, unit := unit,
                    total_purchased := rnd3 q, last_updated := now } : Item)] with
            | none => simp
            | some a =>
                have ha := List.mem_of_find?_eq_some hfs2
                simp only [List.mem_singleton] at ha
                subst ha
                simpa using hrq0
        | some a => simp [hfs]
  | some ex =>
      have hexmem : ex ∈ s.inventory := List.mem_of_find?_eq_some hfind
      have hexn : ex.item_name = item := by simpa using List.find?_some hfind
      obtain ⟨hxq0, hxle, hxm3, hxtm3⟩ := hs.2 ex hexmem
      have hq' : rnd3 (ex.quantity + rnd3 q) = ex.quantity + rnd3 q :=
        rnd3_eq_self (isMul3_add hxm3 hrqm)
      have ht' : rnd3 (ex.total_purchased + rnd3 q) = ex.total_purchased + rnd3 q :=
        rnd3_eq_self (isMul3_add hxtm3 hrqm)
      have hnames : (s.inventory.map (fun it =>
          if it.item_name = item then
            { it with
                quantity := rnd3 (ex.quantity + rnd3 q)
                total_purchased := rnd3 (ex.total_purchased + rnd3 q)
                last_updated := now }
          else it)).map (·.item_name) = s.inventory.map (·.item_name) := by
        rw [List.map_map]
        apply List.map_congr_left
        intro a _
        by_cases hn : a.item_name = item
        · simp [hn]
        · simp [hn]
      constructor
      · constructor
        · rw [hnames]
          exact hs.1
        · intro it hit
          rw [List.mem_map] at hit
          obtain ⟨a, ha, rfl⟩ := hit
          by_cases hn : a.item_name = item
          · have haex : a = ex := eq_of_mem_same_name hs.1 ha hexmem (hn.trans hexn.symm)
            subst haex
            simp only [hn, if_true, hq', ht']
            refine ⟨by linarith, by linarith, ?_, ?_⟩
            · exact isMul3_add hxm3 hrqm
            · exact isMul3_add hxtm3 hrqm
          · simp only [hn, if_false]
            exact hs.2 a ha
      · intro n
        unfold itemTP findItem
        dsimp only
        rw [find?_map_upd s.inventory n item
          (fun it =>
            { it with
                quantity := rnd3 (ex.quantity + rnd3 q)
                total_purchased := rnd3 (ex.total_purchased + rnd3 q)
                last_updated := now })
          (fun it => rfl)]
        cases hfs : s.inventory.find? (fun x => decide (x.item_name = n)) with
        | none => simp [hfs]
        | some a =>
            by_cases hn : a.item_name = item
            · have haex : a = ex :=
                eq_of_mem_same_name hs.1 (List.mem_of_find?_eq_some hfs) hexmem
                  (hn.trans hexn.symm)
              subst haex
              simp only [hn, if_true, ht', Option.map_some', Option.getD_some]
              linarith
            · simp [hn]

theorem remove_item_step {n : String} {q : ℚ} {uid : ℤ} {user : String}
    {notes : Option String} {now : TS} {s : Store} (hs : AuxInv s) (hq : 0 < q) :
    AuxInv (remove_item n q uid user notes now s).2 ∧
    ∀ m, itemTP s m ≤ itemTP (remove_item n q uid user notes now s).2 m := by
  have hrq0 : 0 ≤ rnd3 q := rnd3_nonneg hq.le
  have hrqm : isMul3 (rnd3 q) := rnd3_isMul3 q
  unfold remove_item
  cases hfind : findItem s n with
  | none => exact ⟨hs, fun m => le_refl _⟩
  | some ex =>
      have hexmem := List.mem_of_find?_eq_some hfind
      have hexn : ex.item_name = n := by simpa using List.find?_some hfind
      obtain ⟨hxq0, hxle, hxm3, hxtm3⟩ := hs.2 ex hexmem
      have hav : rnd3 ex.quantity = ex.quantity := rnd3_eq_self hxm3
      dsimp only
      by_cases htol : rnd3 ex.quantity + 1 / 1000 < rnd3 q
      · rw [if_pos htol]
        exact ⟨hs, fun m => le_refl _⟩
      · rw [if_neg htol]
        have hsub : rnd3 (rnd3 ex.quantity - rnd3 q) = ex.quantity - rnd3 q := by
          rw [hav]
          exact rnd3_eq_self (isMul3_sub hxm3 hrqm)
        have h0 : (0 : ℚ) ≤
            if rnd3 (rnd3 ex.quantity - rnd3 q) < 0 then 0
            else rnd3 (rnd3 ex.quantity - rnd3 q) := by
          split_ifs with h
          · exact le_refl 0
          · exact not_lt.mp h
        have hle :
            (if rnd3 (rnd3 ex.quantity - rnd3 q) < 0 then 0
              else rnd3 (rnd3 ex.quantity - rnd3 q)) ≤ ex.total_purchased := by
          split_ifs with h
          · linarith
          · rw [hsub]
            linarith
        have hm3 : isMul3
            (if rnd3 (rnd3 ex.quantity - rnd3 q) < 0 then 0
              else rnd3 (rnd3 ex.quantity - rnd3 q)) := by
          split_ifs with h
          · exact isMul3_zero
          · exact rnd3_isMul3 _
        have hnames : (s.inventory.map (fun it =>
            if it.item_name = n then
              { it with
                  quantity :=
                    if rnd3 (rnd3 ex.quantity - rnd3 q) < 0 then 0
                    else rnd3 (rnd3 ex.quantity - rnd3 q)
                  last_updated := now }
            else it)).map (·.item_name) = s.inventory.map (·.item_name) := by
          rw [List.map_map]
          apply List.map_congr_left
          intro a _
          by_cases hna : a.item_name = n
          · simp [hna]
          · simp [hna]
      


        constructor
        · constructor
          · rw [hnames]
            exact hs.1
          · intro it hit
            rw [List.mem_map] at hit
            obtain ⟨a, ha, rfl⟩ := hit
            by_cases hna : a.item_name = n
            · have haex : a = ex := eq_of_mem_same_name hs.1 ha hexmem (hna.trans hexn.symm)
              subst haex
              simp only [hna, if_true]
              exact ⟨h0, le_trans hle (le_refl _) |>.trans (le_refl _), hm3, hxtm3⟩
            · simp only [hna, if_false]
              exact hs.2 a ha
        · intro m
          unfold itemTP findItem
          dsimp only
          rw [find?_map_upd s.inventory m n
            (fun it =>
              { it with
                  quantity :=
                    if rnd3 (rnd3 ex.quantity - rnd3 q) < 0 then 0
                    else rnd3 (rnd3 ex.quantity - rnd3 q)
                  last_updated := now })
            (fun it => rfl)]
          cases hfs : s.inventory.find? (fun x => decide (x.item_name = m)) with
          | none => simp
          | some a =>
              by_cases hna : a.item_name = n
              · simp [hna]
              · simp [hna]

theorem applyOps_aux : ∀ (ops : List Op) (s : Store), AuxInv s → (∀ op ∈ ops, opOK op) →
    AuxInv (applyOps ops s)
  | [], _, hs, _ => hs
  | op :: ops, s, hs, h => by
      have hop := h op (List.mem_cons_self op ops)
      have hrest : ∀ o ∈ ops, opOK o := fun o ho => h o (List.mem_cons_of_mem _ ho)
      cases op with
      | purchase i c q u uid usr r a v now =>
          exact applyOps_aux ops _ (add_item_step hs hop).1 hrest
      | issue i q uid usr notes now =>
          exact applyOps_aux ops _ (remove_item_step hs hop).1 hrest
      | mgrAdd i c q u uid usr now => exact absurd hop (by simp [opOK])
      | mgrUpdate o i c q u uid usr now => exact absurd hop (by simp [opOK])
      | mgrDelete i uid usr now => exact absurd hop (by simp [opOK])

theorem count_classes (l : List (MenuRow × MenuClass)) :
    (l.filter (·.2 = MenuClass.star)).length + (l.filter (·.2 = MenuClass.plowHorse)).length +
      (l.filter (·.2 = MenuClass.puzzle)).length + (l.filter (·.2 = MenuClass.dog)).length =
      l.length := by
  induction l with
  | nil => simp
  | cons a l ih =>
      cases h : a.2 <;> simp [List.filter_cons, h] <;> omega

theorem lookupQ_nil (k : String) : lookupQ [] k = 0 := rfl

theorem lookupQ_cons (k0 : String) (v0 : ℚ) (l : List (String × ℚ)) (k : String) :
    lookupQ ((k0, v0) :: l) k = if k0 = k then v0 else lookupQ l k := by
  unfold lookupQ
  rw [List.find?_cons]
  by_cases h : k0 = k
  · simp [h]
  · simp [h]

theorem lookupQ_bump_self (l : List (String × ℚ)) (k : String) (v : ℚ) :
    lookupQ (bump l k v) k = lookupQ l k + v := by
  induction l with
  | nil =>
      show lookupQ [(k, v)] k = lookupQ [] k + v
      rw [lookupQ_cons, lookupQ_nil]
      simp
  | cons a l ih =>
      obtain ⟨k0, v0⟩ := a
      by_cases h : k0 = k
      · subst h
        have hb : bump ((k0, v0) :: l) k0 v = (k0, v0 + v) :: l := by
          simp only [bump]
          rw [if_true]
        rw [hb, lookupQ_cons, lookupQ_cons]
        simp
      · have hb : bump ((k0, v0) :: l) k v = (k0, v0) :: bump l k v := by
          simp only [bump]
          rw [if_neg h]
        rw [hb, lookupQ_cons, lookupQ_cons, if_neg h, if_neg h]
        exact ih

theorem lookupQ_bump_other (l : List (String × ℚ)) (k k' : String) (v : ℚ) (h : k' ≠ k) :
    lookupQ (bump l k v) k' = lookupQ l k' := by
  induction l with
  | nil =>
      show lookupQ [(k, v)] k' = lookupQ [] k'
      rw [lookupQ_cons, lookupQ_nil, if_neg (fun he => h he.symm)]
  | cons a l ih =>
      obtain ⟨k0, v0⟩ := a
      by_cases h0 : k0 = k
      · subst h0
        have hb : bump ((k0, v0) :: l) k0 v = (k0, v0 + v) :: l := by
          simp only [bump]
          rw [if_true]
        rw [hb, lookupQ_cons, lookupQ_cons, if_neg (fun he => h he.symm),
          if_neg (fun he => h he.symm)]
      · have hb : bump ((k0, v0) :: l) k v = (k0, v0) :: bump l k v := by
          simp only [bump]
          rw [if_neg h0]
        rw [hb, lookupQ_cons, lookupQ_cons]
        by_cases h1 : k0 = k'
        · rw [if_pos h1, if_pos h1]
        · rw [if_neg h1, if_neg h1]
          exact ih

theorem keys_bump (l : List (String × ℚ)) (k : String) (v : ℚ) :
    (bump l k v).map (·.1) =
      if k ∈ l.map (·.1) then l.map (·.1) else l.map (·.1) ++ [k] := by
  induction l with
  | nil => simp [bump]
  | cons a l ih =>
      obtain ⟨k0, v0⟩ := a
      by_cases h : k0 = k
      · subst h
        have hb : bump ((k0, v0) :: l) k0 v = (k0, v0 + v) :: l := by
          simp only [bump]
          rw [if_true]
        rw [hb]
        simp
      · have hb : bump ((k0, v0) :: l) k v = (k0, v0) :: bump l k v := by
          simp only [bump]
          rw [if_neg h]
        rw [hb, List.map_cons, ih]
        by_cases hm : k ∈ l.map (·.1)
        · simp [hm, h]
        · have h2 : ¬ (k = k0) := fun hk => h hk.symm
          simp [hm, h2]

theorem mem_keys_bump (l : List (String × ℚ)) (k : String) (v : ℚ) (m : String) :
    m ∈ (bump l k v).map (·.1) ↔ m ∈ l.map (·.1) ∨ m = k := by
  rw [keys_bump]
  split_ifs with h
  · constructor
    · exact Or.inl
    · rintro (hm | rfl)
      · exact hm
      · exact h
  · rw [List.mem_append, List.mem_singleton]

theorem theoreticalMap_fold (S : List SaleRow) :
    ∀ (B : List BomRow) (acc : List (String × ℚ)) (k : String),
      lookupQ (B.foldl
        (fun acc row =>
          if row.menuItem ∈ S.map (·.item) then
            bump acc row.ingredient (soldQty S row.menuItem * row.qtyRequired)
          else acc) acc) k = lookupQ acc k + theoContrib S B k
  | [], acc, k => by simp [theoContrib]
  | r :: B, acc, k => by
      rw [List.foldl_cons]
      by_cases hmem : r.menuItem ∈ S.map (·.item)
      · rw [if_pos hmem]
        rw [theoreticalMap_fold S B _ k]
        by_cases hing : r.ingredient = k
        · subst hing
          rw [lookupQ_bump_self]
          have hfil : theoContrib S (r :: B) r.ingredient =
              soldQty S r.menuItem * r.qtyRequired + theoContrib S B r.ingredient := by
            unfold theoContrib
            rw [List.filter_cons]
            simp [hmem]
          rw [hfil]
          ring
        · rw [lookupQ_bump_other _ _ _ _ (fun he => hing he.symm)]
          have hfil : theoContrib S (r :: B) k = theoContrib S B k := by
            unfold theoContrib
            rw [List.filter_cons]
            simp [hing]
          rw [hfil]
      · rw [if_neg hmem]
        rw [theoreticalMap_fold S B acc k]
        have hfil : theoContrib S (r :: B) k = theoContrib S B k := by
          unfold theoContrib
          rw [List.filter_cons]
          simp [hmem]
        rw [hfil]

theorem lookupQ_theoreticalMap (S : List SaleRow) (B : List BomRow) (k : String) :
    lookupQ (theoreticalMap S B) k = theoContrib S B k := by
  have h := theoreticalMap_fold S B [] k
  unfold theoreticalMap
  simpa [lookupQ] using h

theorem mem_keys_theoreticalMap (S : List SaleRow) (B : List BomRow) (k : String) :
    k ∈ (theoreticalMap S B).map (·.1) ↔
      ∃ r ∈ B, r.ingredient = k ∧ r.menuItem ∈ S.map (·.item) := by
  unfold theoreticalMap
  suffices h : ∀ (B : List BomRow) (acc : List (String × ℚ)),
      (k ∈ (B.foldl
        (fun acc row =>
          if row.menuItem ∈ S.map (·.item) then
            bump acc row.ingredient (soldQty S row.menuItem * row.qtyRequired)
          else acc) acc).map (·.1) ↔
      k ∈ acc.map (·.1) ∨ ∃ r ∈ B, r.ingredient = k ∧ r.menuItem ∈ S.map (·.item)) by
    simpa using h B []
  intro B2
  induction B2 with
  | nil => simp
  | cons r B2 ih =>
      intro acc
      rw [List.foldl_cons]
      by_cases hmem : r.menuItem ∈ S.map (·.item)
      · rw [if_pos hmem]
        rw [ih]
        rw [mem_keys_bump]
        constructor
        · rintro ((h | h) | h)
          · exact Or.inl h
          · exact Or.inr ⟨r, List.mem_cons_self _ _, h.symm, hmem⟩
          · obtain ⟨r2, hr2, h1, h2⟩ := h
            exact Or.inr ⟨r2, List.mem_cons_of_mem _ hr2, h1, h2⟩
        · rintro (h | ⟨r2, hr2, h1, h2⟩)
          · exact Or.inl (Or.inl h)
          · rcases List.mem_cons.mp hr2 with rfl | hr2
            · exact Or.inl (Or.inr h1.symm)
            · exact Or.inr ⟨r2, hr2, h1, h2⟩
      · rw [if_neg hmem]
        rw [ih]
        constructor
        · rintro (h | ⟨r2, hr2, h1, h2⟩)
          · exact Or.inl h
          · exact Or.inr ⟨r2, List.mem_cons_of_mem _ hr2, h1, h2⟩
        · rintro (h | ⟨r2, hr2, h1, h2⟩)
          · exact Or.inl h
          · rcases List.mem_cons.mp hr2 with rfl | hr2
            · exact absurd h2 hmem
            · exact Or.inr ⟨r2, hr2, h1, h2⟩

/-- Claim C1 (counterexample): refutes the claim as stated.  On the concrete
datasets `pC1`/`iC1`, item B has purchased = 0 but its `leakage_pct` is
negative infinity, not 0, and item A's `leakage_pct` is the 2-decimal
rounding 66.67, not exactly (purchased − issued)/purchased × 100. -/
theorem claim_C1_counterexample :
    (∃ e ∈ leakage_waste_analysis pC1 iC1,
        e.item = "B" ∧ e.totalPurchased = 0 ∧ 0 < e.totalIssued ∧
        e.leakagePct = PFloat.ninf ∧ e.leakagePct ≠ PFloat.fin 0) ∧
    (∃ e ∈ leakage_waste_analysis pC1 iC1,
        e.item = "A" ∧ e.totalPurchased = 3 ∧ e.totalIssued = 1 ∧
        e.leakagePct = PFloat.fin (6667 / 100) ∧
        PFloat.fin ((6667 : ℚ) / 100) ≠
          PFloat.fin ((e.totalPurchased - e.totalIssued) / e.totalPurchased * 100)) := by
  have hmemB : leakRow pC1 iC1 "B" ∈ leakage_waste_analysis pC1 iC1 := by
    unfold leakage_waste_analysis
    rw [mem_sortByKeyDesc, List.mem_map]
    refine ⟨"B", ?_, rfl⟩
    unfold leakageKeys
    rw [mem_sortedKeys]
    simp [pC1, iC1]
  have hmemA : leakRow pC1 iC1 "A" ∈ leakage_waste_analysis pC1 iC1 := by
    unfold leakage_waste_analysis
    rw [mem_sortByKeyDesc, List.mem_map]
    refine ⟨"A", ?_, rfl⟩
    unfold leakageKeys
    rw [mem_sortedKeys]
    simp [pC1, iC1]
  constructor
  · refine ⟨leakRow pC1 iC1 "B", hmemB, rfl, ?_, ?_, ?_, ?_⟩
    · simp [leakRow, purchasedQty, purchasedAmount, issuedQty, pC1, iC1,
        List.filter_cons, List.filter_nil, PFloat.div, PFloat.mul, PFloat.round2]
    · simp [leakRow, purchasedQty, purchasedAmount, issuedQty, pC1, iC1,
        List.filter_cons, List.filter_nil, PFloat.div, PFloat.mul, PFloat.round2] <;> norm_num
    · simp [leakRow, purchasedQty, purchasedAmount, issuedQty, pC1, iC1,
        List.filter_cons, List.filter_nil, PFloat.div, PFloat.mul, PFloat.round2] <;> norm_num
    · simp [leakRow, purchasedQty, purchasedAmount, issuedQty, pC1, iC1,
        List.filter_cons, List.filter_nil, PFloat.div, PFloat.mul, PFloat.round2]
      decide
  · refine ⟨leakRow pC1 iC1 "A", hmemA, rfl, ?_, ?_, ?_, ?_⟩
    · simp [leakRow, purchasedQty, purchasedAmount, issuedQty, pC1, iC1,
        List.filter_cons, List.filter_nil, PFloat.div, PFloat.mul, PFloat.round2] <;> norm_num
    · simp [leakRow, purchasedQty, purchasedAmount, issuedQty, pC1, iC1,
        List.filter_cons, List.filter_nil, PFloat.div, PFloat.mul, PFloat.round2] <;> norm_num
    · simp [leakRow, purchasedQty, purchasedAmount, issuedQty, pC1, iC1,
        List.filter_cons, List.filter_nil, PFloat.div, PFloat.mul, PFloat.round2] <;> norm_num [rnd2, rhe]
    · simp [leakRow, purchasedQty, purchasedAmount, issuedQty, pC1, iC1,
        List.filter_cons, List.filter_nil, PFloat.div, PFloat.mul, PFloat.round2] <;> norm_num

/-- Claim C1 (amended): every row of the leakage analysis carries the
per-item purchased/issued/amount sums of the outer join (missing side 0);
`leakage_pct` and `value_lost` are the stated formulas rounded to 2
decimals when purchased ≠ 0; when purchased = 0 they are ±∞ or NaN (never
0); the rows cover exactly the items of either dataset; and the result is
sorted descending by `leakage_pct` with NaN last. -/
theorem claim_C1_amended (P : List PurchaseRow) (I : List IssueRow) :
    (∀ e ∈ leakage_waste_analysis P I,
        e.totalPurchased = purchasedQty P e.item ∧
        e.totalIssued = issuedQty I e.item ∧
        e.amount = purchasedAmount P e.item ∧
        e.difference = e.totalPurchased - e.totalIssued ∧
        (e.totalPurchased ≠ 0 →
          e.leakagePct =
            .fin (rnd2 ((e.totalPurchased - e.totalIssued) / e.totalPurchased * 100)) ∧
          e.valueLost =
            .fin (rnd2 ((e.totalPurchased - e.totalIssued) / e.totalPurchased * e.amount))) ∧
        (e.totalPurchased = 0 → 0 < e.totalIssued →
          e.leakagePct = PFloat.ninf ∧
          (e.amount = 0 → e.valueLost = PFloat.nan) ∧
          (0 < e.amount → e.valueLost = PFloat.ninf)) ∧
        (e.totalPurchased = 0 → e.totalIssued = 0 →
          e.leakagePct = PFloat.nan ∧ e.valueLost = PFloat.nan)) ∧
    (∀ k, (∃ e ∈ leakage_waste_analysis P I, e.item = k) ↔
        ((∃ r ∈ P, r.item = k) ∨ (∃ r ∈ I, r.item = k))) ∧
    (leakage_waste_analysis P I).Pairwise
      (fun a b => PFloat.sortGE a.leakagePct b.leakagePct = true) := by
  refine ⟨?_, ?_, ?_⟩
  · intro e he
    unfold leakage_waste_analysis at he
    rw [mem_sortByKeyDesc, List.mem_map] at he
    obtain ⟨k, hk, rfl⟩ := he
    unfold leakRow
    dsimp only
    refine ⟨rfl, rfl, rfl, rfl, ?_, ?_, ?_⟩
    · intro htp
      constructor
      · simp [PFloat.div, PFloat.mul, PFloat.round2, htp]
      · simp [PFloat.div, PFloat.mul, PFloat.round2, htp]
    · intro htp hti
      have h1 : ¬ issuedQty I k < 0 := lt_asymm hti
      refine ⟨?_, fun ham => ?_, fun ham => ?_⟩
      · simp [PFloat.div, PFloat.mul, PFloat.round2, htp, hti, h1]
      · simp [PFloat.div, PFloat.mul, PFloat.round2, htp, hti, h1, ham]
      · simp [PFloat.div, PFloat.mul, PFloat.round2, htp, hti, h1, ham, lt_asymm ham]
    · intro htp hti
      constructor
      · simp [PFloat.div, PFloat.mul, PFloat.round2, htp, hti]
      · simp [PFloat.div, PFloat.mul, PFloat.round2, htp, hti]
  · intro k
    constructor
    · rintro ⟨e, he, rfl⟩
      unfold leakage_waste_analysis at he
      rw [mem_sortByKeyDesc, List.mem_map] at he
      obtain ⟨k0, hk0, rfl⟩ := he
      unfold leakageKeys at hk0
      rw [mem_sortedKeys, List.mem_append] at hk0
      rcases hk0 with h | h <;> rw [List.mem_map] at h <;> obtain ⟨r, hr, hrk⟩ := h
      · exact Or.inl ⟨r, hr, by simpa [leakRow] using hrk⟩
      · exact Or.inr ⟨r, hr, by simpa [leakRow] using hrk⟩
    · intro h
      have hk : k ∈ leakageKeys P I := by
        unfold leakageKeys
        rw [mem_sortedKeys, List.mem_append]
        rcases h with ⟨r, hr, hrk⟩ | ⟨r, hr, hrk⟩
        · exact Or.inl (List.mem_map.mpr ⟨r, hr, hrk⟩)
        · exact Or.inr (List.mem_map.mpr ⟨r, hr, hrk⟩)
      refine ⟨leakRow P I k, ?_, rfl⟩
      unfold leakage_waste_analysis
      rw [mem_sortByKeyDesc, List.mem_map]
      exact ⟨k, hk, rfl⟩
  · unfold leakage_waste_analysis
    exact sortByKeyDesc_sorted (fun e : LeakRow => e.leakagePct) _

/-- Witness for claim C1's theorem at the concrete datasets `pC1`/`iC1`. -/
theorem claim_C1_witness :
    leakRow pC1 iC1 "A" ∈ leakage_waste_analysis pC1 iC1 ∧
    (leakRow pC1 iC1 "A").leakagePct =
      PFloat.fin (rnd2
        (((leakRow pC1 iC1 "A").totalPurchased - (leakRow pC1 iC1 "A").totalIssued) /
          (leakRow pC1 iC1 "A").totalPurchased * 100)) := by
  have hmem : leakRow pC1 iC1 "A" ∈ leakage_waste_analysis pC1 iC1 := by
    unfold leakage_waste_analysis
    rw [mem_sortByKeyDesc, List.mem_map]
    refine ⟨"A", ?_, rfl⟩
    unfold leakageKeys
    rw [mem_sortedKeys]
    simp [pC1, iC1]
  have htp : (leakRow pC1 iC1 "A").totalPurchased ≠ 0 := by
    simp [leakRow, purchasedQty, pC1, List.filter_cons, List.filter_nil] <;> norm_num
  exact ⟨hmem, (((claim_C1_amended pC1 iC1).1 _ hmem).2.2.2.2.1 htp).1⟩

/-- Claim C2 (counterexample): refutes the claim as stated:
`manager_add_item` on an empty store leaves `total_purchased` at its column
default 0, so quantity = 5 > total_purchased = 0 breaks the accounting
invariant. -/
theorem claim_C2_counterexample :
    itemQty (applyOps [Op.mgrAdd "X" "Veg" 5 "KG" 1 "mgr" ⟨1, 0⟩] emptyStore) "X" = 5 ∧
    itemTP (applyOps [Op.mgrAdd "X" "Veg" 5 "KG" 1 "mgr" ⟨1, 0⟩] emptyStore) "X" = 0 ∧
    ¬ itemQty (applyOps [Op.mgrAdd "X" "Veg" 5 "KG" 1 "mgr" ⟨1, 0⟩] emptyStore) "X" ≤
        itemTP (applyOps [Op.mgrAdd "X" "Veg" 5 "KG" 1 "mgr" ⟨1, 0⟩] emptyStore) "X" := by
  simp [applyOps, applyOp, manager_add_item, findItem, emptyStore, itemQty, itemTP]

/-- Claim C2 (amended): starting from an empty store, for every sequence of
purchase (`add_item`) and issue (`remove_item`) operations with positive
quantities, after every prefix the invariants quantity ≥ 0 and
quantity ≤ total_purchased hold for every item, and each single step leaves
every item's `total_purchased` non-decreasing. -/
theorem claim_C2_amended (ops : List Op) (h : ∀ op ∈ ops, opOK op) :
    (∀ pre suf, ops = pre ++ suf → InvOK (applyOps pre emptyStore)) ∧
    (∀ pre op suf, ops = pre ++ op :: suf → ∀ n,
        itemTP (applyOps pre emptyStore) n ≤ itemTP (applyOps (pre ++ [op]) emptyStore) n) := by
  have hempty : AuxInv emptyStore := ⟨by simp [emptyStore], by simp [emptyStore]⟩
  constructor
  · intro pre suf hps
    subst hps
    have hpre : ∀ op ∈ pre, opOK op := fun op ho => h op (List.mem_append_left _ ho)
    have haux := applyOps_aux pre emptyStore hempty hpre
    intro it hit
    exact ⟨(haux.2 it hit).1, (haux.2 it hit).2.1⟩
  · intro pre op suf hps n
    subst hps
    have hpre : ∀ o ∈ pre, opOK o := fun o ho => h o (List.mem_append_left _ ho)
    have hop : opOK op := h op (List.mem_append_right _ (List.mem_cons_self _ _))
    have haux := applyOps_aux pre emptyStore hempty hpre
    have happ : applyOps (pre ++ [op]) emptyStore = applyOp (applyOps pre emptyStore) op := by
      unfold applyOps
      rw [List.foldl_append]
      rfl
    rw [happ]
    cases op with
    | purchase i c q u uid usr r a v now => exact (add_item_step haux hop).2 n
    | issue i q uid usr notes now => exact (remove_item_step haux hop).2 n
    | mgrAdd i c q u uid usr now => exact absurd hop (by simp [opOK])
    | mgrUpdate o i c q u uid usr now => exact absurd hop (by simp [opOK])
    | mgrDelete i uid usr now => exact absurd hop (by simp [opOK])

/-- Witness for claim C2's theorem on a concrete purchase-then-issue
sequence. -/
theorem claim_C2_witness :
    InvOK (applyOps opsC2 emptyStore) ∧
    itemTP (applyOps [Op.purchase "X" "Veg" 10 "KG" 1 "pm" none none none ⟨1, 0⟩]
        emptyStore) "X" ≤
      itemTP (applyOps ([Op.purchase "X" "Veg" 10 "KG" 1 "pm" none none none ⟨1, 0⟩] ++
        [Op.issue "X" 4 2 "km" none ⟨2, 0⟩]) emptyStore) "X" := by
  have hops : ∀ op ∈ opsC2, opOK op := by
    intro op hop
    simp only [opsC2, List.mem_cons, List.not_mem_nil, or_false] at hop
    rcases hop with rfl | rfl
    · norm_num [opOK]
    · norm_num [opOK]
  have h := claim_C2_amended opsC2 hops
  refine ⟨h.1 opsC2 [] (by simp), ?_⟩
  exact h.2 [Op.purchase "X" "Veg" 10 "KG" 1 "pm" none none none ⟨1, 0⟩]
    (Op.issue "X" 4 2 "km" none ⟨2, 0⟩) [] (by simp [opsC2]) "X"

/-- Claim C3: from a store without X, purchase(X, 10) then purchase(X, 5)
yields quantity = 15 and total_purchased = 15; issue(X, 12) succeeds and
yields quantity = 3; a further issue(X, 10) fails with an
insufficient-stock result and leaves the state unchanged. -/
theorem claim_C3 :
    itemQty sC3 "X" = 15 ∧ itemTP sC3 "X" = 15 ∧
    rC3a.1 = RemoveResult.ok ∧ itemQty rC3a.2 "X" = 3 ∧
    rC3b.1 = RemoveResult.insufficientStock 3 "KG" ∧ rC3b.2 = rC3a.2 := by
  have h10 : rnd3 (10 : ℚ) = 10 := by norm_num [rnd3, rhe]
  have h5 : rnd3 (5 : ℚ) = 5 := by norm_num [rnd3, rhe]
  have h15 : rnd3 (15 : ℚ) = 15 := by norm_num [rnd3, rhe]
  have h12 : rnd3 (12 : ℚ) = 12 := by norm_num [rnd3, rhe]
  have h3 : rnd3 (3 : ℚ) = 3 := by norm_num [rnd3, rhe]
  simp [sC3, rC3a, rC3b, add_item, remove_item, findItem, emptyStore, itemQty, itemTP,
    h10, h5, h15, h12, h3]
  norm_num [rnd3, rhe]

/-- Claim C4 (counterexample): refutes the claim as stated: an ingredient
with theoretical = 0 and actual = 0 gets `variance_pct` NaN (a 0/0
division), which the `replace` of infinities does not clamp to 0. -/
theorem claim_C4_counterexample :
    ∃ e ∈ variance_analysis salesC4 bomC4 [],
      e.ingredient = "Cheese" ∧ e.theoretical = 0 ∧ e.actual = 0 ∧
      e.variancePct = PFloat.nan ∧ e.variancePct ≠ PFloat.fin 0 := by
  have hth : theoreticalMap salesC4 bomC4 = [("Cheese", 0)] := by
    simp [theoreticalMap, bump, soldQty, salesC4, bomC4, List.filter_cons]
  have hmem : varRow salesC4 bomC4 [] "Cheese" ∈ variance_analysis salesC4 bomC4 [] := by
    unfold variance_analysis
    rw [mem_sortByKeyDesc, List.mem_map]
    refine ⟨"Cheese", ?_, rfl⟩
    unfold varianceKeys
    rw [mem_sortedKeys]
    simp [hth]
  refine ⟨varRow salesC4 bomC4 [] "Cheese", hmem, rfl, ?_, ?_, ?_, ?_⟩
  · simp [varRow, hth, lookupQ_cons, lookupQ_nil]
  · simp [varRow, issuedQty]
  · simp [varRow, hth, lookupQ_cons, lookupQ_nil, issuedQty,
      PFloat.div, PFloat.mul, PFloat.round2, replaceInf]
  · simp [varRow, hth, lookupQ_cons, lookupQ_nil, issuedQty,
      PFloat.div, PFloat.mul, PFloat.round2, replaceInf]

/-- Claim C4 (amended): every row of the variance analysis carries
theoretical = the accumulated sales × recipe requirement and actual = the
issued sum, with variance = actual − theoretical; `variance_pct` is the
stated formula rounded to 2 decimals when theoretical ≠ 0, is clamped to 0
when theoretical = 0 and actual ≠ 0, and is NaN when both are 0; the rows
cover exactly the ingredients of either side of the outer join; the result
is sorted descending by `variance_pct` (tie order unspecified — pandas'
default quicksort is not stable). -/
theorem claim_C4_amended (S : List SaleRow) (B : List BomRow) (I : List IssueRow) :
    (∀ e ∈ variance_analysis S B I,
        e.theoretical = theoContrib S B e.ingredient ∧
        e.actual = issuedQty I e.ingredient ∧
        e.variance = e.actual - e.theoretical ∧
        (e.theoretical ≠ 0 →
          e.variancePct = .fin (rnd2 ((e.actual - e.theoretical) / e.theoretical * 100))) ∧
        (e.theoretical = 0 → e.actual ≠ 0 → e.variancePct = .fin 0) ∧
        (e.theoretical = 0 → e.actual = 0 → e.variancePct = PFloat.nan)) ∧
    (∀ k, (∃ e ∈ variance_analysis S B I, e.ingredient = k) ↔
        ((∃ r ∈ B, r.ingredient = k ∧ r.menuItem ∈ S.map (·.item)) ∨
          (∃ r ∈ I, r.item = k))) ∧
    (variance_analysis S B I).Pairwise
      (fun a b => PFloat.sortGE a.variancePct b.variancePct = true) := by
  refine ⟨?_, ?_, ?_⟩
  · intro e he
    unfold variance_analysis at he
    rw [mem_sortByKeyDesc, List.mem_map] at he
    obtain ⟨k, hk, rfl⟩ := he
    unfold varRow
    dsimp only
    refine ⟨lookupQ_theoreticalMap S B k, rfl, rfl, ?_, ?_, ?_⟩
    · intro hth
      simp [PFloat.div, PFloat.mul, PFloat.round2, replaceInf, hth]
    · intro hth hac
      rw [hth]
      rcases lt_or_gt_of_ne hac with hlt | hgt
      · simp [PFloat.div, PFloat.mul, PFloat.round2, replaceInf, hlt, lt_asymm hlt]
      · simp [PFloat.div, PFloat.mul, PFloat.round2, replaceInf, hgt, lt_asymm hgt]
    · intro hth hac
      rw [hth, hac]
      simp [PFloat.div, PFloat.mul, PFloat.round2, replaceInf]
  · intro k
    constructor
    · rintro ⟨e, he, rfl⟩
      unfold variance_analysis at he
      rw [mem_sortByKeyDesc, List.mem_map] at he
      obtain ⟨k0, hk0, rfl⟩ := he
      unfold varianceKeys at hk0
      rw [mem_sortedKeys, List.mem_append] at hk0
      rcases hk0 with h | h
      · exact Or.inl ((mem_keys_theoreticalMap S B _).mp (by simpa [varRow] using h))
      · rw [List.mem_map] at h
        obtain ⟨r, hr, hrk⟩ := h
        exact Or.inr ⟨r, hr, by simpa [varRow] using hrk⟩
    · intro h
      have hk : k ∈ varianceKeys S B I := by
        unfold varianceKeys
        rw [mem_sortedKeys, List.mem_append]
        rcases h with h | ⟨r, hr, hrk⟩
        · exact Or.inl ((mem_keys_theoreticalMap S B k).mpr h)
        · exact Or.inr (List.mem_map.mpr ⟨r, hr, hrk⟩)
      refine ⟨varRow S B I k, ?_, rfl⟩
      unfold variance_analysis
      rw [mem_sortByKeyDesc, List.mem_map]
      exact ⟨k, hk, rfl⟩
  · unfold variance_analysis
    exact sortByKeyDesc_sorted (fun e : VarRow => e.variancePct) _

/-- Witness for claim C4's theorem at concrete sales/BOM/issue data. -/
theorem claim_C4_witness :
    varRow salesC4w bomC4 stkC4w "Cheese" ∈ variance_analysis salesC4w bomC4 stkC4w ∧
    (varRow salesC4w bomC4 stkC4w "Cheese").variancePct =
      PFloat.fin (rnd2 (((varRow salesC4w bomC4 stkC4w "Cheese").actual -
        (varRow salesC4w bomC4 stkC4w "Cheese").theoretical) /
          (varRow salesC4w bomC4 stkC4w "Cheese").theoretical * 100)) := by
  have hth : theoreticalMap salesC4w bomC4 = [("Cheese", 20)] := by
    simp [theoreticalMap, bump, soldQty, salesC4w, bomC4, List.filter_cons]
    norm_num
  have hmem : varRow salesC4w bomC4 stkC4w "Cheese" ∈ variance_analysis salesC4w bomC4 stkC4w := by
    unfold variance_analysis
    rw [mem_sortByKeyDesc, List.mem_map]
    refine ⟨"Cheese", ?_, rfl⟩
    unfold varianceKeys
    rw [mem_sortedKeys]
    simp [hth]
  have hne : (varRow salesC4w bomC4 stkC4w "Cheese").theoretical ≠ 0 := by
    simp [varRow, hth, lookupQ_cons]
  exact ⟨hmem, ((claim_C4_amended salesC4w bomC4 stkC4w).1 _ hmem).2.2.2.1 hne⟩

/-- Claim C5: for every non-empty sales dataset the menu-engineering
classification assigns each aggregated menu item exactly one of the four
labels by the two against-the-mean comparisons (ties at the mean count as
high, NaN comparisons as low), so the four groups are disjoint, cover all
items, and their sizes sum to the total item count. -/
theorem claim_C5 (S : List SaleRow) (hS : S ≠ []) :
    (((menu_engineering_analysis S).filter (·.2 = MenuClass.star)).length +
      ((menu_engineering_analysis S).filter (·.2 = MenuClass.plowHorse)).length +
      ((menu_engineering_analysis S).filter (·.2 = MenuClass.puzzle)).length +
      ((menu_engineering_analysis S).filter (·.2 = MenuClass.dog)).length =
      (menu_engineering_analysis S).length) ∧
    (∀ e ∈ menu_engineering_analysis S, ∀ c : MenuClass,
        e ∈ (menu_engineering_analysis S).filter (·.2 = c) ↔ e.2 = c) ∧
    (∀ e ∈ menu_engineering_analysis S,
        (e.2 = MenuClass.star ↔
          PFloat.leB (avgPopularity S) (.fin e.1.qtySold) = true ∧
          PFloat.leB (avgProfitMargin S) e.1.profitMarginPct = true) ∧
        (e.2 = MenuClass.plowHorse ↔
          PFloat.leB (avgPopularity S) (.fin e.1.qtySold) = true ∧
          ¬ PFloat.leB (avgProfitMargin S) e.1.profitMarginPct = true) ∧
        (e.2 = MenuClass.puzzle ↔
          ¬ PFloat.leB (avgPopularity S) (.fin e.1.qtySold) = true ∧
          PFloat.leB (avgProfitMargin S) e.1.profitMarginPct = true) ∧
        (e.2 = MenuClass.dog ↔
          ¬ PFloat.leB (avgPopularity S) (.fin e.1.qtySold) = true ∧
          ¬ PFloat.leB (avgProfitMargin S) e.1.profitMarginPct = true)) := by
  refine ⟨count_classes _, ?_, ?_⟩
  · intro e he c
    rw [List.mem_filter]
    simp [he]
  · intro e he
    unfold menu_engineering_analysis at he
    rw [List.mem_map] at he
    obtain ⟨r, hr, rfl⟩ := he
    cases hp : PFloat.leB (avgPopularity S) (.fin r.qtySold) <;>
      cases hm : PFloat.leB (avgProfitMargin S) r.profitMarginPct <;>
        simp [classify_item, hp, hm]

/-- Witness for claim C5's theorem on a concrete one-item sales dataset. -/
theorem claim_C5_witness :
    ((menu_engineering_analysis salesC5).filter (·.2 = MenuClass.star)).length +
      ((menu_engineering_analysis salesC5).filter (·.2 = MenuClass.plowHorse)).length +
      ((menu_engineering_analysis salesC5).filter (·.2 = MenuClass.puzzle)).length +
      ((menu_engineering_analysis salesC5).filter (·.2 = MenuClass.dog)).length =
      (menu_engineering_analysis salesC5).length :=
  (claim_C5 salesC5 (List.cons_ne_nil _ _)).1

/-- Claim C6 (counterexample): refutes the claim as stated: a top-5 item
whose chronologically first rate is 0 and last rate is 50 gets `change_pct`
positive infinity, not 0. -/
theorem claim_C6_counterexample :
    ∃ e ∈ price_trend_analysis pC6,
      e.item = "A" ∧ e.firstPrice = 0 ∧ e.lastPrice = 50 ∧
      e.change = PFloat.inf ∧ e.change ≠ PFloat.fin 0 := by
  have htop : top_items pC6 = ["A"] := by
    simp [top_items, sortedKeys, pC6, purchasedAmount, List.filter_cons,
      List.insertionSort, List.orderedInsert, List.dedup]
  have hc : chronRates pC6 "A" = [0, 50] := by
    simp [chronRates, pC6, List.filter_cons, List.insertionSort, List.orderedInsert]
  have htr : trendRow? pC6 "A" =
      some { item := "A", firstPrice := 0, lastPrice := 50, change := PFloat.inf } := by
    unfold trendRow?
    rw [hc]
    dsimp only
    norm_num [PFloat.div, PFloat.mul]
  refine ⟨{ item := "A", firstPrice := 0, lastPrice := 50, change := PFloat.inf },
    ?_, rfl, rfl, rfl, rfl, by decide⟩
  unfold price_trend_analysis
  rw [htop]
  simp [List.filterMap_cons, htr]

/-- Claim C6 (amended): for each of the (at most 5) top items by summed
purchase amount, the price trend takes the first and last rate of the
item's chronologically sorted purchases and `change_pct` is
(last − first)/first × 100 when first ≠ 0; when first = 0 it is positive
infinity (last positive) or NaN (last 0); every top item yields exactly one
row. -/
theorem claim_C6_amended (P : List PurchaseRow) :
    (∀ e ∈ price_trend_analysis P,
        e.item ∈ top_items P ∧
        (∃ h : chronRates P e.item ≠ [],
          e.firstPrice = (chronRates P e.item).head h ∧
          e.lastPrice = (chronRates P e.item).getLast h) ∧
        (e.firstPrice ≠ 0 →
          e.change = .fin ((e.lastPrice - e.firstPrice) / e.firstPrice * 100)) ∧
        (e.firstPrice = 0 → 0 < e.lastPrice → e.change = PFloat.inf) ∧
        (e.firstPrice = 0 → e.lastPrice = 0 → e.change = PFloat.nan)) ∧
    (top_items P).length ≤ 5 ∧
    (∀ k ∈ top_items P, ∃ e ∈ price_trend_analysis P, e.item = k) := by
  have hsome : ∀ k ∈ top_items P, chronRates P k ≠ [] := by
    intro k hk
    have hk2 : k ∈ sortedKeys (P.map (·.item)) := by
      unfold top_items at hk
      rw [List.mem_map] at hk
      obtain ⟨pair, hpair, rfl⟩ := hk
      have := (List.take_sublist _ _).subset hpair
      rw [List.mem_insertionSort, List.mem_map] at this
      obtain ⟨k0, hk0, rfl⟩ := this
      exact hk0
    rw [mem_sortedKeys, List.mem_map] at hk2
    obtain ⟨r, hr, hrk⟩ := hk2
    have hmem : r ∈ P.filter (·.item = k) := by
      rw [List.mem_filter]
      exact ⟨hr, by simp [hrk]⟩
    unfold chronRates
    intro hnil
    rw [List.map_eq_nil] at hnil
    rw [← List.mem_insertionSort (fun a b : PurchaseRow => a.date ≤ b.date)] at hmem
    rw [hnil] at hmem
    exact List.not_mem_nil r hmem
  refine ⟨?_, ?_, ?_⟩
  · intro e he
    unfold price_trend_analysis at he
    rw [List.mem_filterMap] at he
    obtain ⟨k, hk, htr⟩ := he
    unfold trendRow? at htr
    cases hc : chronRates P k with
    | nil => rw [hc] at htr; simp at htr
    | cons r rs =>
        rw [hc] at htr
        dsimp only at htr
        injection htr with htr
        subst htr
        refine ⟨hk, ⟨by rw [hc]; exact List.cons_ne_nil r rs, ?_, ?_⟩, ?_, ?_, ?_⟩
        · simp [hc]
        · simp only [hc]
          exact (List.getLast_eq_getLastD r rs (List.cons_ne_nil r rs)).symm
        · intro hr0
          dsimp only at hr0 ⊢
          simp [PFloat.div, PFloat.mul, hr0]
        · intro hr0 hlast
          dsimp only at hr0 hlast ⊢
          rw [hr0] at hlast ⊢
          simp only [List.getLastD_eq_getLast?] at hlast
          simp [PFloat.div, PFloat.mul, hlast, lt_asymm hlast]
        · intro hr0 hlast
          dsimp only at hr0 hlast ⊢
          rw [hr0] at hlast ⊢
          simp only [List.getLastD_eq_getLast?] at hlast
          simp [PFloat.div, PFloat.mul, hlast]
  · unfold top_items
    rw [List.length_map]
    exact List.length_take_le _ _
  · intro k hk
    cases hc : chronRates P k with
    | nil => exact absurd hc (hsome k hk)
    | cons r rs =>
        refine ⟨{ item := k
                  firstPrice := r
                  lastPrice := rs.getLastD r
                  change := PFloat.mul (PFloat.div (.fin (rs.getLastD r - r)) (.fin r))
                    (.fin 100) }, ?_, rfl⟩
        unfold price_trend_analysis
        rw [List.mem_filterMap]
        refine ⟨k, hk, ?_⟩
        unfold trendRow?
        rw [hc]

/-- Witness for claim C6's theorem: a two-purchase series 100 → 120 gets the
finite formula (which evaluates to +20). -/
theorem claim_C6_witness :
    ∃ e ∈ price_trend_analysis pC6w, e.item = "B" ∧
      e.change = PFloat.fin ((e.lastPrice - e.firstPrice) / e.firstPrice * 100) := by
  have htop : top_items pC6w = ["B"] := by
    simp [top_items, sortedKeys, pC6w, purchasedAmount, List.filter_cons,
      List.insertionSort, List.orderedInsert, List.dedup]
  have hB : "B" ∈ top_items pC6w := by
    rw [htop]
    exact List.mem_singleton.mpr rfl
  obtain ⟨e, he, hei⟩ := (claim_C6_amended pC6w).2.2 "B" hB
  have hcr : chronRates pC6w "B" = [100, 120] := by
    simp [chronRates, pC6w, List.filter_cons, List.insertionSort, List.orderedInsert]
  obtain ⟨hne, hfst, -⟩ := ((claim_C6_amended pC6w).1 e he).2.1
  have hf : e.firstPrice = 100 := by
    rw [hfst]
    simp only [hei, hcr]
    rfl
  refine ⟨e, he, hei, ?_⟩
  exact ((claim_C6_amended pC6w).1 e he).2.2.1 (by rw [hf]; norm_num)

/-- Claim C7 (counterexample): refutes the claim as stated: `api_purchase`
accepts quantity −5 (only 0 is falsy in the `not all([...])` check),
succeeds, and records a negative quantity. -/
theorem claim_C7_counterexample :
    ((-5 : ℚ) ≤ 0) ∧
    (api_purchase "X" "Veg" (-5) "KG" 1 "pm" none none none ⟨1, 0⟩ emptyStore).1 =
      ApiResult.ok ∧
    itemQty (api_purchase "X" "Veg" (-5) "KG" 1 "pm" none none none ⟨1, 0⟩ emptyStore).2 "X" =
      -5 := by
  have hcond : ¬ (("X" : String) = "" ∨ ("Veg" : String) = "" ∨ ((-5 : ℚ)) = 0 ∨
      ("KG" : String) = "") := by
    push_neg
    refine ⟨by decide, by decide, by norm_num, by decide⟩
  have hr : rnd3 (-5 : ℚ) = -5 := rnd3_eq_self ⟨-5000, by norm_num⟩
  unfold api_purchase
  rw [if_neg hcond]
  refine ⟨by norm_num, rfl, ?_⟩
  simp [add_item, findItem, emptyStore, itemQty, hr]

/-- Claim C7 (amended): the purchase endpoint fails exactly when a required
field is empty or the quantity is 0; for any other quantity (including
negative ones) it succeeds, adds the 3-decimal-rounded quantity to both
`quantity` and `total_purchased` of an existing item or creates the item
with both equal to it, and appends a `purchase` transaction. -/
theorem claim_C7_amended (item cat : String) (qty : ℚ) (unit : String) (uid : ℤ)
    (user : String) (rate amount : Option ℚ) (vendor : Option String) (now : TS) (s : Store) :
    ((api_purchase item cat qty unit uid user rate amount vendor now s).1 = ApiResult.ok ↔
      (item ≠ "" ∧ cat ≠ "" ∧ qty ≠ 0 ∧ unit ≠ "")) ∧
    ((api_purchase item cat qty unit uid user rate amount vendor now s).1 =
        ApiResult.badRequest →
      (api_purchase item cat qty unit uid user rate amount vendor now s).2 = s) ∧
    ((api_purchase item cat qty unit uid user rate amount vendor now s).1 = ApiResult.ok →
      ((api_purchase item cat qty unit uid user rate amount vendor now s).2.transactions =
        s.transactions ++
          [{ item_name := item, category := cat, quantity := rnd3 qty, unit := unit,
             transaction_type := "purchase", user_id := uid, username := user, rate := rate,
             amount := amount, vendor := vendor, notes := none, created_at := now }]) ∧
      (findItem s item = none →
        itemQty (api_purchase item cat qty unit uid user rate amount vendor now s).2 item =
            rnd3 qty ∧
        itemTP (api_purchase item cat qty unit uid user rate amount vendor now s).2 item =
            rnd3 qty) ∧
      (∀ ex, findItem s item = some ex →
        itemQty (api_purchase item cat qty unit uid user rate amount vendor now s).2 item =
            rnd3 (ex.quantity + rnd3 qty) ∧
        itemTP (api_purchase item cat qty unit uid user rate amount vendor now s).2 item =
            rnd3 (ex.total_purchased + rnd3 qty))) := by
  by_cases hcond : item = "" ∨ cat = "" ∨ qty = 0 ∨ unit = ""
  · unfold api_purchase
    rw [if_pos hcond]
    refine ⟨?_, fun _ => rfl, by simp⟩
    refine iff_of_false (by simp) ?_
    intro hc
    rcases hcond with h | h | h | h
    · exact hc.1 h
    · exact hc.2.1 h
    · exact hc.2.2.1 h
    · exact hc.2.2.2 h
  · unfold api_purchase
    rw [if_neg hcond]
    push_neg at hcond
    refine ⟨by simpa using hcond, by simp, fun _ => ?_⟩
    unfold add_item
    cases hfind : findItem s item with
    | none =>
        refine ⟨rfl, fun _ => ?_, by simp [hfind]⟩
        have hfind2 : s.inventory.find? (fun x => decide (x.item_name = item)) = none := hfind
        simp [itemQty, itemTP, findItem, List.find?_append, hfind2]
    | some ex =>
        have hexn : ex.item_name = item := by
          have := List.find?_some hfind
          simpa using this
        refine ⟨rfl, by simp [hfind], fun ex2 hex2 => ?_⟩
        injection hex2 with hex2
        subst hex2
        have hfind2 : s.inventory.find? (fun x => decide (x.item_name = item)) = some ex := hfind
        have hupd := find?_map_upd s.inventory item item
          (fun it =>
            { it with
                quantity := rnd3 (ex.quantity + rnd3 qty)
                total_purchased := rnd3 (ex.total_purchased + rnd3 qty)
                last_updated := now })
          (fun it => rfl)
        simp only [itemQty, itemTP, findItem]
        simp [hupd, hfind2, hexn]

/-- Witness for claim C7's theorem at a concrete valid purchase. -/
theorem claim_C7_witness :
    (api_purchase "X" "Veg" 5 "KG" 1 "pm" none none none ⟨1, 0⟩ emptyStore).1 =
        ApiResult.ok ∧
    itemQty (api_purchase "X" "Veg" 5 "KG" 1 "pm" none none none ⟨1, 0⟩ emptyStore).2 "X" =
        rnd3 5 := by
  have h := claim_C7_amended "X" "Veg" 5 "KG" 1 "pm" none none none ⟨1, 0⟩ emptyStore
  have hok : (api_purchase "X" "Veg" 5 "KG" 1 "pm" none none none ⟨1, 0⟩ emptyStore).1 =
      ApiResult.ok := h.1.mpr ⟨by simp, by simp, by norm_num, by simp⟩
  exact ⟨hok, ((h.2.2 hok).2.1 (by simp [findItem, emptyStore])).1⟩

/-- Claim C8: the low-stock query returns exactly the inventory items with
total_purchased > 0 and quantity < total_purchased × 10/100 (the default
threshold); an item with total_purchased = 100 is flagged at quantity 9 and
not at quantity 10. -/
theorem claim_C8 :
    (∀ (s : Store) (it : Item),
        it ∈ get_low_stock_items 10 s ↔
          it ∈ s.inventory ∧ 0 < it.total_purchased ∧
            it.quantity < it.total_purchased * 10 / 100) ∧
    (∀ (s : Store) (it : Item), it ∈ s.inventory → it.total_purchased = 100 →
        (it.quantity = 9 → it ∈ get_low_stock_items 10 s) ∧
        (it.quantity = 10 → it ∉ get_low_stock_items 10 s)) := by
  have hmem : ∀ (s : Store) (it : Item),
      it ∈ get_low_stock_items 10 s ↔
        it ∈ s.inventory ∧ 0 < it.total_purchased ∧
          it.quantity < it.total_purchased * 10 / 100 := by
    intro s it
    unfold get_low_stock_items
    rw [List.mem_insertionSort, List.mem_filter]
    simp [and_assoc]
  refine ⟨hmem, ?_⟩
  intro s it hmem' htp
  constructor
  · intro hq
    rw [hmem]
    exact ⟨hmem', by rw [htp]; norm_num, by rw [htp, hq]; norm_num⟩
  · intro hq hcon
    rw [hmem] at hcon
    obtain ⟨-, -, hlt⟩ := hcon
    rw [htp, hq] at hlt
    norm_num at hlt

/-- Witness for claim C8's theorem on a concrete two-item store. -/
theorem claim_C8_witness :
    itC8a ∈ get_low_stock_items 10 sC8 ∧ itC8b ∉ get_low_stock_items 10 sC8 :=
  ⟨((claim_C8.2 sC8 itC8a (by simp [sC8]) (by simp [itC8a])).1 (by simp [itC8a])),
   ((claim_C8.2 sC8 itC8b (by simp [sC8]) (by simp [itC8b])).2 (by simp [itC8b]))⟩

/-- Claim C9: a successful issue (`remove_item`) preserves the inventory's
length and every item's `item_name`, `category`, `unit` and
`total_purchased`, and leaves items with a different name entirely
unchanged; `manager_update_item` never changes any item's
`total_purchased`. -/
theorem claim_C9 :
    (∀ (n : String) (q : ℚ) (uid : ℤ) (user : String) (notes : Option String) (now : TS)
        (s : Store),
      (remove_item n q uid user notes now s).1 = RemoveResult.ok →
      (remove_item n q uid user notes now s).2.inventory.length = s.inventory.length ∧
      ∀ (i : ℕ) (h1 : i < s.inventory.length)
          (h2 : i < (remove_item n q uid user notes now s).2.inventory.length),
        ((remove_item n q uid user notes now s).2.inventory.get ⟨i, h2⟩).item_name =
            (s.inventory.get ⟨i, h1⟩).item_name ∧
        ((remove_item n q uid user notes now s).2.inventory.get ⟨i, h2⟩).category =
            (s.inventory.get ⟨i, h1⟩).category ∧
        ((remove_item n q uid user notes now s).2.inventory.get ⟨i, h2⟩).unit =
            (s.inventory.get ⟨i, h1⟩).unit ∧
        ((remove_item n q uid user notes now s).2.inventory.get ⟨i, h2⟩).total_purchased =
            (s.inventory.get ⟨i, h1⟩).total_purchased ∧
        ((s.inventory.get ⟨i, h1⟩).item_name ≠ n →
          (remove_item n q uid user notes now s).2.inventory.get ⟨i, h2⟩ =
            s.inventory.get ⟨i, h1⟩)) ∧
    (∀ (orig nm cat : String) (q : ℚ) (unit : String) (uid : ℤ) (user : String) (now : TS)
        (s : Store),
      (manager_update_item orig nm cat q unit uid user now s).2.inventory.length =
          s.inventory.length ∧
      ∀ (i : ℕ) (h1 : i < s.inventory.length)
          (h2 : i < (manager_update_item orig nm cat q unit uid user now s).2.inventory.length),
        ((manager_update_item orig nm cat q unit uid user now
              s).2.inventory.get ⟨i, h2⟩).total_purchased =
          (s.inventory.get ⟨i, h1⟩).total_purchased) := by
  constructor
  · intro n q uid user notes now s hok
    obtain ⟨nq, hinv⟩ := remove_item_ok_shape hok
    refine ⟨by rw [hinv]; exact List.length_map _ _, ?_⟩
    intro i h1 h2
    simp only [List.get_eq_getElem, hinv, List.getElem_map]
    by_cases hname : (s.inventory[i]).item_name = n
    · simp [hname]
    · simp [hname]
  · intro orig nm cat q unit uid user now s
    rcases manager_update_shape orig nm cat q unit uid user now s with hinv | hinv
    · refine ⟨by rw [hinv], ?_⟩
      intro i h1 h2
      simp only [List.get_eq_getElem, hinv]
    · refine ⟨by rw [hinv]; exact List.length_map _ _, ?_⟩
      intro i h1 h2
      simp only [List.get_eq_getElem, hinv, List.getElem_map]
      by_cases hname : (s.inventory[i]).item_name = orig
      · simp [hname]
      · simp [hname]

/-- Witness for claim C9's theorem at a concrete successful issue. -/
theorem claim_C9_witness :
    (remove_item "X" 2 1 "km" none ⟨60, 0⟩ sC9).1 = RemoveResult.ok ∧
    (remove_item "X" 2 1 "km" none ⟨60, 0⟩ sC9).2.inventory.length = sC9.inventory.length := by
  have h5 : rnd3 (5 : ℚ) = 5 := rnd3_eq_self ⟨5000, by norm_num⟩
  have h2 : rnd3 (2 : ℚ) = 2 := rnd3_eq_self ⟨2000, by norm_num⟩
  have h3 : rnd3 (3 : ℚ) = 3 := rnd3_eq_self ⟨3000, by norm_num⟩
  have hok : (remove_item "X" 2 1 "km" none ⟨60, 0⟩ sC9).1 = RemoveResult.ok := by
    simp [remove_item, findItem, sC9, h5, h2, h3]
    norm_num
  exact ⟨hok, (claim_C9.1 "X" 2 1 "km" none ⟨60, 0⟩ sC9 hok).1⟩

/-- Claim C10: `get_transactions` never returns a transaction whose
`created_at` date is more than 30 days before the query day — under every
combination of the type and date filters — and returns at most `limit`
entries ordered by `created_at` descending. -/
theorem claim_C10 (s : Store) (nowDay : ℤ) (limit : ℕ) (ttype : Option String)
    (dateF fromD toD : Option ℤ) :
    (∀ tx ∈ get_transactions nowDay limit ttype dateF fromD toD s,
        nowDay - tx.created_at.day ≤ 30) ∧
    (get_transactions nowDay limit ttype dateF fromD toD s).length ≤ limit ∧
    (get_transactions nowDay limit ttype dateF fromD toD s).Pairwise
      (fun a b => TS.leB b.created_at a.created_at = true) := by
  refine ⟨?_, ?_, ?_⟩
  · intro tx htx
    unfold get_transactions at htx
    have htx2 := (List.take_sublist _ _).subset htx
    rw [List.mem_insertionSort, List.mem_filter] at htx2
    have hm := htx2.2
    unfold txnMatches at hm
    simp only [Bool.and_eq_true, decide_eq_true_eq] at hm
    omega
  · exact List.length_take_le _ _
  · unfold get_transactions
    have hs := List.sorted_insertionSort (tsRelDesc (fun t : Txn => t.created_at))
      (s.transactions.filter (txnMatches nowDay ttype dateF fromD toD))
    exact List.Pairwise.sublist (List.take_sublist _ _) hs

/-- Witness for claim C10's theorem on a concrete transaction log. -/
theorem claim_C10_witness :
    txC10 ∈ get_transactions 110 50 none none none none sC10 ∧
    (110 : ℤ) - txC10.created_at.day ≤ 30 := by
  have hmem : txC10 ∈ get_transactions 110 50 none none none none sC10 := by
    simp [get_transactions, txnMatches, sC10, txC10, List.insertionSort]
  exact ⟨hmem, (claim_C10 sC10 110 50 none none none none).1 txC10 hmem⟩
